import Mathlib

/-!
Verification of the influencer reconciliation and synchronization engine:
identity normalization, roster loading, candidate partitioning into
pending/rejected/unknown, working-copy editing, change fingerprinting and
stale-copy reload, full-overwrite sheet synchronization, header
deduplication, and the cache-commit behaviour of data loading.

The definitions below are shallow embeddings of the Python source
(`utils.py`, `pages.List.py`, `pages/Credibility.py`); strings are Lean
strings, data frames are lists of typed rows or of string rows, and the
remote sheet is a list of string rows.
-/

namespace InfluencerApp

/-- Characters removed by Python's `str.strip()` with no arguments
(the ASCII whitespace set). -/
def isPySpace (c : Char) : Bool :=
  c == ' ' || c == '\t' || c == '\n' || c == '\r' || c == '\x0b' || c == '\x0c'

/-- Leading-whitespace removal, as in Python `str.lstrip()`. -/
def stripL (l : List Char) : List Char := l.dropWhile isPySpace

/-- Trailing-whitespace removal, as in Python `str.rstrip()`. -/
def stripR (l : List Char) : List Char := (l.reverse.dropWhile isPySpace).reverse

/-- Both-ends whitespace removal, as in Python `str.strip()`. -/
def stripBoth (l : List Char) : List Char := stripR (stripL l)

/-- Python `s.strip()` on strings. -/
def pyStrip (s : String) : String := ⟨stripBoth s.data⟩

/-- Python `s.lstrip("@")`: removes ALL leading `@` characters
(`pages.List.py` line 199, `pages/Credibility.py` line 251). -/
def pyLstripAt (s : String) : String := ⟨s.data.dropWhile (fun c => c == '@')⟩

/-- Python `s.lower()` (ASCII model). -/
def pyLower (s : String) : String := ⟨s.data.map Char.toLower⟩

/-- The identity normalization applied to every uploaded or entered
identity: `s.lstrip("@").strip()` — `pages.List.py` line 199 and
`pages/Credibility.py` line 251. -/
def normalize (s : String) : String := pyStrip (pyLstripAt s)

/-- An uploaded candidate row: normalized identity plus the remaining
metric cells (which classification never inspects).  The embedding fixes
the upload schema of spec section 3 (metric columns only), so the merged
`Credibility`/`Comment` columns are the roster's. -/
structure CandRow where
  id : String
  metrics : List String
deriving DecidableEq, Repr

/-- An authoritative roster row (`Influencers List` sheet): ID, Comment,
Credibility, all cells read as strings. -/
structure RosterRow where
  id : String
  comment : String
  credibility : String
deriving DecidableEq, Repr

/-- Per-row roster preprocessing in `load_all_data`
(`pages.List.py` lines 144-147): the ID cell is stripped and the
credibility cell is stripped and lowercased. -/
def loadRosterRow (r : RosterRow) : RosterRow :=
  { id := pyStrip r.id, comment := r.comment,
    credibility := pyLower (pyStrip r.credibility) }

/-- Roster preprocessing applied to the whole influencers sheet. -/
def loadRoster (roster : List RosterRow) : List RosterRow :=
  roster.map loadRosterRow

/-- Upload preprocessing in `process_uploaded_file`
(`pages.List.py` line 199): every ID is normalized. -/
def processUpload (cands : List CandRow) : List CandRow :=
  cands.map (fun c => { c with id := normalize c.id })

/-- `new_df.merge(inf_df, on="ID", how="left")` (`pages.List.py` line
218): each candidate row is paired with every roster row having an equal
ID, or with `none` when no roster row matches. -/
def mergeLeft (cands : List CandRow) (roster : List RosterRow) :
    List (CandRow × Option RosterRow) :=
  cands.flatMap (fun c =>
    match roster.filter (fun r => r.id == c.id) with
    | [] => [(c, none)]
    | r :: rs => (r :: rs).map (fun m => (c, some m)))

/-- The rejection test `merged_df["Credibility"].isin(["false", "False"])`
(`pages.List.py` line 222). -/
def isFalseStr (s : String) : Bool := s == "false" || s == "False"

/-- A row of the rejected table: ID, the roster comment, and the profile
link (`pages.List.py` lines 219, 222). -/
structure RejectedRow where
  id : String
  comment : String
  link : String
deriving DecidableEq, Repr

/-- `rejected_df`: merged rows whose roster credibility is "false" or
"False", projected to ID/Comment/Link (`pages.List.py` line 222). -/
def rejectedRows (cands : List CandRow) (roster : List RosterRow) :
    List RejectedRow :=
  (mergeLeft cands roster).filterMap (fun p =>
    match p.2 with
    | some r =>
        if isFalseStr r.credibility then
          some ⟨p.1.id, r.comment, "https://www.instagram.com/" ++ p.1.id⟩
        else none
    | none => none)

/-- The identities appearing in `rejected_df["ID"]`. -/
def rejectedIds (cands : List CandRow) (roster : List RosterRow) : List String :=
  (rejectedRows cands roster).map (fun p => p.id)

/-- `unknown_df` before decoration: merged rows with no roster match
(`merged_df["Credibility"].isna()`, `pages.List.py` line 223). -/
def unknownBase (cands : List CandRow) (roster : List RosterRow) : List CandRow :=
  (mergeLeft cands roster).filterMap (fun p =>
    match p.2 with
    | none => some p.1
    | some _ => none)

/-- The identities appearing in `unknown_df["ID"]`. -/
def unknownIds (cands : List CandRow) (roster : List RosterRow) : List String :=
  (unknownBase cands roster).map (fun c => c.id)

/-- A decorated unknown-partition row (`pages.List.py` lines 223, 238-241):
ID, profile link, default comment "No comment yet", sheet-selection flag
off, and default status "Rejected". -/
structure UnknownRow where
  id : String
  link : String
  comment : String
  selectSheet : Bool
  status : String
deriving DecidableEq, Repr

/-- `unknown_df` after decoration (`pages.List.py` lines 238-241). -/
def unknownRows (cands : List CandRow) (roster : List RosterRow) :
    List UnknownRow :=
  (unknownBase cands roster).map (fun c =>
    ⟨c.id, "https://www.instagram.com/" ++ c.id,
     "No comment yet", false, "Rejected"⟩)

/-- `pending_df`: candidates whose ID is in neither the rejected nor the
unknown ID set (`pages.List.py` lines 225-226). -/
def pendingRows (cands : List CandRow) (roster : List RosterRow) : List CandRow :=
  cands.filter (fun c =>
    !((rejectedIds cands roster).contains c.id) &&
    !((unknownIds cands roster).contains c.id))

/-- The identities appearing in `pending_df["ID"]`. -/
def pendingIds (cands : List CandRow) (roster : List RosterRow) : List String :=
  (pendingRows cands roster).map (fun c => c.id)

/-- The identities of an uploaded candidate list (`new_df["ID"]`). -/
def candIds (cands : List CandRow) : List String := cands.map (fun c => c.id)

/-- The editable working copy of the Credibility page: `full_table`
(rows of credibility/comment cells keyed by positional index) together
with `editor_version` (`pages/Credibility.py` lines 143-151, 209-227).
The cell types are abstract with decidable equality, matching the
generic per-field `!=` comparison in the update loop. -/
structure EditState (α β : Type) where
  table : List (α × β)
  version : Nat
deriving Repr

/-- The edited-table reconciliation loop (`pages/Credibility.py` lines
209-227): for each edited row `(idx, cred, comment)`, if either stored
field differs from the proposed value, both fields are written and the
row is counted as changed; rows whose index does not resolve are
skipped; `editor_version` is bumped exactly when at least one row
changed. -/
def applyEdits {α β : Type} [DecidableEq α] [DecidableEq β]
    (s : EditState α β) (edits : List (Nat × α × β)) : EditState α β :=
  let r := edits.foldl
    (fun acc e =>
      match acc.1.get? e.1 with
      | some cur =>
          if cur.1 ≠ e.2.1 ∨ cur.2 ≠ e.2.2 then (acc.1.set e.1 e.2, acc.2 + 1)
          else acc
      | none => acc)
    (s.table, 0)
  if r.2 > 0 then ⟨r.1, s.version + 1⟩ else s

/-- `"".join(all_values[-1]) if all_values else ""`
(`pages/Credibility.py` line 117). -/
def lastRowJoin (rows : List (List String)) : String :=
  String.join (rows.getLast?.getD [])

/-- `version_str = f"..."` of `get_sheet_version`
(`pages/Credibility.py` line 118): the decimal row count, a dash, and
the concatenated cells of the last row. -/
def versionStr (rows : List (List String)) : String :=
  Nat.repr rows.length ++ "-" ++ lastRowJoin rows

/-- `get_sheet_version` (`pages/Credibility.py` lines 114-119),
parametrized by the digest function (`hashlib.md5(...).hexdigest()` is a
fixed pure function of the input string). -/
def get_sheet_version (digest : String → String)
    (rows : List (List String)) : String :=
  digest (versionStr rows)

/-- The session state consulted by the remote-change check of the
Credibility page: the working copy `full_table` (abstract content `T`),
the recorded `sheet_version` fingerprint, and `editor_version`. -/
structure CredState (T : Type) where
  full_table : T
  sheet_version : Option String
  editor_version : Nat
deriving Repr

/-- The fingerprint comparison at `pages/Credibility.py` lines 146-152:
with no recorded fingerprint, the fresh one is recorded; with a recorded
fingerprint differing from the fresh one, the working copy is replaced
by the freshly loaded roster projection, the fresh fingerprint is
recorded, and `editor_version` is incremented; otherwise nothing
changes. -/
def checkSheetVersion {T : Type} (st : CredState T) (fresh : T)
    (v : String) : CredState T :=
  match st.sheet_version with
  | none => { st with sheet_version := some v }
  | some v0 =>
      if v0 ≠ v then ⟨fresh, some v, st.editor_version + 1⟩ else st

/-- A working-copy row pushed by the Credibility page: ID, comment and a
boolean credibility cell. -/
structure SyncRow where
  id : String
  comment : String
  cred : Bool
deriving DecidableEq, Repr

/-- The working table pushed by `update_google_sheet`: the three column
names of `full_table` (ID, Comment, Credibility in display order) and
its data rows. -/
structure WorkTable where
  idCol : String
  commentCol : String
  credCol : String
  rows : List SyncRow
deriving DecidableEq, Repr

/-- `worksheet.clear()` (spec section 6): removes all remote rows. -/
def wsClear (_remote : List (List String)) : List (List String) := []

/-- `worksheet.update(values)` (spec section 6): writes `values` starting
at the first row, leaving any remote rows beyond them untouched. -/
def wsUpdate (remote values : List (List String)) : List (List String) :=
  values ++ remote.drop values.length

/-- The value matrix built by `update_google_sheet`
(`pages/Credibility.py` lines 273-275): the header row of column names
followed by the data rows, with the boolean credibility cell rendered via
the map `True ↦ "True", False ↦ "False"`. -/
def serializeTable (t : WorkTable) : List (List String) :=
  [t.idCol, t.commentCol, t.credCol] ::
    t.rows.map (fun r => [r.id, r.comment, if r.cred then "True" else "False"])

/-- `update_google_sheet` (`pages/Credibility.py` lines 271-278):
serialize the working table, clear the remote sheet, then write. -/
def update_google_sheet (t : WorkTable) (remote : List (List String)) :
    List (List String) :=
  wsUpdate (wsClear remote) (serializeTable t)

/-- `seen[h] += 1` on the duplicate-counter dictionary of
`make_unique_headers` (`utils.py` line 96). -/
def bumpSeen (seen : List (String × Nat)) (h : String) :
    List (String × Nat) :=
  seen.map (fun p => if p.1 == h then (p.1, p.2 + 1) else p)

/-- The loop body of `make_unique_headers` (`utils.py` lines 89-98),
with the Python dict modelled as an association list (keys are inserted
at most once, so lookup agrees with the dict). -/
def muhGo (seen : List (String × Nat)) : List String → List String
  | [] => []
  | h :: t =>
      match seen.lookup h with
      | none => h :: muhGo ((h, 0) :: seen) t
      | some n => (h ++ "_" ++ Nat.repr (n + 1)) :: muhGo (bumpSeen seen h) t

/-- `make_unique_headers` (`utils.py` lines 87-98). -/
def make_unique_headers (headers : List String) : List String :=
  muhGo [] headers

/-- A loaded worksheet table: header names and data rows, all cells
strings (`optimize_dataframe` only retypes cells and is modelled as the
identity on content). -/
structure RawTable where
  headers : List String
  rows : List (List String)
deriving DecidableEq, Repr

/-- `load_worksheet_df` (`utils.py` lines 70-85): a failed fetch is
caught and yields an EMPTY table (the error is only displayed); data
with at most one row also yields an empty table; otherwise the first row
becomes the deduplicated header list and the rest become data rows. -/
def load_worksheet_df (fetch : Except String (List (List String))) :
    RawTable :=
  match fetch with
  | .error _ => ⟨[], []⟩
  | .ok [] => ⟨[], []⟩
  | .ok [_] => ⟨[], []⟩
  | .ok (h :: r :: rest) => ⟨make_unique_headers h, r :: rest⟩

/-- The master-sheet columns required by `load_all_data`
(`pages.List.py` line 150). -/
def requiredCols : List String :=
  ["ID", "Post Price", "Story price", "Publication date(Miladi)",
   "Category", "Follower"]

/-- `master_df[col] = None` for each missing required column
(`pages.List.py` lines 151-153); the fresh null columns are appended to
the header list (their null cells are not materialized in the string
rows). -/
def addMissingCols (t : RawTable) : RawTable :=
  { headers := t.headers ++ requiredCols.filter (fun c => !t.headers.contains c),
    rows := t.rows }

/-- In-place transformation of one named column of a raw table
(`df[col] = df[col].map(f)` shape). -/
def setCol (t : RawTable) (col : String) (f : String → String) : RawTable :=
  match t.headers.findIdx? (fun h => h == col) with
  | none => t
  | some i => { t with rows := t.rows.map (fun row => row.set i (f (row.getD i ""))) }

/-- Appending a defaulted column when absent (`df.get(col, default)`
shape, `pages.List.py` lines 145-146). -/
def ensureCol (t : RawTable) (col : String) (dflt : String) : RawTable :=
  if t.headers.contains col then t
  else { headers := t.headers ++ [col],
         rows := t.rows.map (fun row => row ++ [dflt]) }

/-- The influencer-table processing of `load_all_data`
(`pages.List.py` lines 144-147): strip the ID column, default the
Comment and Credibility columns, then strip-and-lowercase the
Credibility column. -/
def processInf (t : RawTable) : RawTable :=
  let t1 := setCol t "ID" pyStrip
  let t2 := ensureCol t1 "Comment" ""
  let t3 := ensureCol t2 "Credibility" "False"
  setCol t3 "Credibility" (fun s => pyLower (pyStrip s))

/-- The value cached by `load_all_data`: the processed influencer roster
and the master metrics table. -/
structure LoadedData where
  inf : RawTable
  master : RawTable
deriving DecidableEq, Repr

/-- `load_all_data` (`pages.List.py` lines 131-163) over the outcomes of
the two remote fetches.  A failed influencer fetch yields an empty
influencer table, whose missing ID column then raises inside the `try`
block, reaching `st.stop` — modelled as `Except.error ()`.  A failed
master fetch yields an empty master table that survives the required-
column defaulting, so the call SUCCEEDS with an empty master. -/
def load_all_data (infFetch masterFetch : Except String (List (List String))) :
    Except Unit LoadedData :=
  let infT := load_worksheet_df infFetch
  let masterT := load_worksheet_df masterFetch
  if infT.headers.contains "ID" then
    Except.ok ⟨processInf infT, addMissingCols masterT⟩
  else
    Except.error ()

/-- `st.cache_data` commit semantics: a successful return replaces the
cached value, an exception (including `st.stop`) leaves the previously
cached value in place. -/
def cacheAfter (prev : Option LoadedData) (r : Except Unit LoadedData) :
    Option LoadedData :=
  match r with
  | .ok v => some v
  | .error _ => prev

/-! ### Generic list lemmas -/

theorem head?_dropWhile_not {α : Type} (p : α → Bool) (l : List α) :
    ∀ c, (l.dropWhile p).head? = some c → p c = false := by
  induction l with
  | nil => intro c h; simp [List.dropWhile] at h
  | cons a t ih =>
      intro c h
      by_cases hp : p a = true
      · rw [List.dropWhile_cons_of_pos hp] at h
        exact ih c h
      · rw [List.dropWhile_cons_of_neg hp] at h
        have hc : a = c := by simpa using congrArg (fun o => o.getD a) h
        subst hc
        exact Bool.eq_false_iff.mpr hp

theorem dropWhile_eq_self_of_head {α : Type} (p : α → Bool) (l : List α)
    (h : ∀ c, l.head? = some c → p c = false) : l.dropWhile p = l := by
  cases l with
  | nil => rfl
  | cons a t =>
      have ha : p a = false := h a rfl
      simp [List.dropWhile_cons, ha]

theorem get?_set_same {α : Type} (l : List α) (i : Nat) (a b : α)
    (h : l.get? i = some b) : (l.set i a).get? i = some a := by
  have hlt : i < l.length := by
    rcases Nat.lt_or_ge i l.length with h1 | h1
    · exact h1
    · rw [List.get?_eq_getElem?, List.getElem?_eq_none h1] at h
      exact absurd h (by simp)
  rw [List.get?_eq_getElem?]
  simp [List.getElem?_set, hlt]

/-! ### Whitespace stripping lemmas -/

theorem stripL_head (l : List Char) :
    ∀ c, (stripL l).head? = some c → isPySpace c = false :=
  head?_dropWhile_not isPySpace l

theorem stripR_getLast (l : List Char) :
    ∀ c, (stripR l).getLast? = some c → isPySpace c = false := by
  intro c h
  have h2 : (l.reverse.dropWhile isPySpace).head? = some c := by
    have := List.head?_reverse (l.reverse.dropWhile isPySpace).reverse
    rw [List.reverse_reverse] at this
    rw [this]
    exact h
  exact head?_dropWhile_not isPySpace l.reverse c h2

theorem stripR_append (l : List Char) :
    l = stripR l ++ (l.reverse.takeWhile isPySpace).reverse := by
  calc l = l.reverse.reverse := (List.reverse_reverse l).symm
    _ = (l.reverse.takeWhile isPySpace ++ l.reverse.dropWhile isPySpace).reverse := by
          rw [List.takeWhile_append_dropWhile]
    _ = (l.reverse.dropWhile isPySpace).reverse ++ (l.reverse.takeWhile isPySpace).reverse := by
          rw [List.reverse_append]
    _ = stripR l ++ (l.reverse.takeWhile isPySpace).reverse := rfl

theorem stripR_head (l : List Char) :
    ∀ c, (stripR l).head? = some c → l.head? = some c := by
  intro c h
  cases hs : stripR l with
  | nil => rw [hs] at h; simp at h
  | cons a b =>
      rw [hs] at h
      have hac : a = c := by simpa using h
      have hl := stripR_append l
      rw [hs] at hl
      rw [hl]
      simp [hac]

theorem stripL_eq_self (l : List Char)
    (h : ∀ c, l.head? = some c → isPySpace c = false) : stripL l = l :=
  dropWhile_eq_self_of_head isPySpace l h

theorem stripR_eq_self (l : List Char)
    (h : ∀ c, l.getLast? = some c → isPySpace c = false) : stripR l = l := by
  have h2 : ∀ c, l.reverse.head? = some c → isPySpace c = false := by
    intro c hc
    rw [List.head?_reverse] at hc
    exact h c hc
  rw [stripR, dropWhile_eq_self_of_head isPySpace l.reverse h2, List.reverse_reverse]

theorem stripBoth_head (l : List Char) :
    ∀ c, (stripBoth l).head? = some c → isPySpace c = false := by
  intro c h
  exact stripL_head l c (stripR_head (stripL l) c h)

theorem stripBoth_getLast (l : List Char) :
    ∀ c, (stripBoth l).getLast? = some c → isPySpace c = false :=
  stripR_getLast (stripL l)

theorem stripBoth_idem (l : List Char) :
    stripBoth (stripBoth l) = stripBoth l := by
  show stripR (stripL (stripBoth l)) = stripBoth l
  rw [stripL_eq_self _ (stripBoth_head l), stripR_eq_self _ (stripBoth_getLast l)]

theorem pyStrip_idem (s : String) : pyStrip (pyStrip s) = pyStrip s :=
  congrArg String.mk (stripBoth_idem s.data)

/-! ### Claim C2 -/

/-- Claim C2 as frozen is false on the code: `lstrip("@")` removes all
leading at-signs and runs BEFORE the whitespace trim, so whitespace can
expose a fresh leading at-sign.  At `s = "@ @a"` the normalized form
`"@a"` starts with an at-sign and normalizing again changes it. -/
theorem C2_counterexample :
    normalize (normalize "@ @a") ≠ normalize "@ @a" ∧
    (normalize "@ @a").data.head? = some '@' := by
  constructor
  · decide
  · decide

/-- Claim C2 (amended): `normalize` removes ALL leading at-signs (not
just one) and then trims surrounding whitespace; the result never has
leading or trailing whitespace (stripping it again is the identity); and
`normalize` is idempotent on every input whose normalized form does not
begin with an at-sign. -/
theorem C2_normalize_amended (s : String) :
    pyStrip (normalize s) = normalize s ∧
    normalize ("@" ++ s) = normalize s ∧
    ((normalize s).data.head? ≠ some '@' → normalize (normalize s) = normalize s) := by
  refine ⟨congrArg String.mk (stripBoth_idem _), rfl, ?_⟩
  intro h
  have h1 : pyLstripAt (normalize s) = normalize s := by
    show (⟨(normalize s).data.dropWhile (fun c => c == '@')⟩ : String) = normalize s
    rw [dropWhile_eq_self_of_head _ _ ?_]
    intro c hc
    by_contra hb
    have hcq : c = '@' := by
      have : (c == '@') = true := Bool.not_eq_false _ ▸ Bool.of_not_eq_false hb
      exact eq_of_beq this
    exact h (hcq ▸ hc)
  show pyStrip (pyLstripAt (normalize s)) = normalize s
  rw [h1]
  exact congrArg String.mk (stripBoth_idem _)

/-- Witness for the amended claim C2 at the concrete input `"@@bob "`,
whose normalized form is `"bob"`. -/
theorem C2_normalize_amended_witness :
    pyStrip (normalize "@@bob ") = normalize "@@bob " ∧
    normalize ("@" ++ "@@bob ") = normalize "@@bob " ∧
    normalize (normalize "@@bob ") = normalize "@@bob " :=
  ⟨(C2_normalize_amended "@@bob ").1, (C2_normalize_amended "@@bob ").2.1,
   (C2_normalize_amended "@@bob ").2.2 (by decide)⟩

/-! ### Membership characterizations for the reconciliation engine -/

theorem contains_iff_mem (l : List String) (a : String) :
    l.contains a = true ↔ a ∈ l := List.elem_iff

theorem mem_candList (P : List RosterRow) (a : CandRow)
    (p : CandRow × Option RosterRow) :
    (p ∈ (match P.filter (fun r => r.id == a.id) with
          | [] => [(a, (none : Option RosterRow))]
          | r :: rs => (r :: rs).map (fun m => (a, some m)))) ↔
      ((p = (a, none) ∧ P.filter (fun r => r.id == a.id) = []) ∨
        ∃ m, p = (a, some m) ∧ m ∈ P.filter (fun r => r.id == a.id)) := by
  cases hfil : P.filter (fun r => r.id == a.id) with
  | nil => simp
  | cons r rs =>
      simp [List.mem_map]
      constructor
      · rintro (rfl | ⟨m, hm, rfl⟩)
        · exact ⟨r, rfl, Or.inl rfl⟩
        · exact ⟨m, rfl, Or.inr hm⟩
      · rintro ⟨m, rfl, (rfl | hm)⟩
        · exact Or.inl rfl
        · exact Or.inr ⟨m, hm, rfl⟩

theorem mem_mergeLeft (cands : List CandRow) (P : List RosterRow)
    (p : CandRow × Option RosterRow) :
    p ∈ mergeLeft cands P ↔
      ∃ a, a ∈ cands ∧
        ((p = (a, none) ∧ P.filter (fun r => r.id == a.id) = []) ∨
          ∃ m, p = (a, some m) ∧ m ∈ P.filter (fun r => r.id == a.id)) := by
  unfold mergeLeft
  rw [List.mem_flatMap]
  exact exists_congr fun a => and_congr_right fun _ => mem_candList P a p

theorem mem_unknownBase (cands : List CandRow) (P : List RosterRow) (c : CandRow) :
    c ∈ unknownBase cands P ↔
      c ∈ cands ∧ P.filter (fun r => r.id == c.id) = [] := by
  unfold unknownBase
  rw [List.mem_filterMap]
  constructor
  · rintro ⟨⟨c1, o⟩, hp, hg⟩
    cases o with
    | none =>
        have hc1 : c1 = c := by simpa using hg
        subst hc1
        rw [mem_mergeLeft] at hp
        obtain ⟨a, ha, hcase⟩ := hp
        rcases hcase with ⟨hpe, hfil⟩ | ⟨m, hpe, _⟩
        · have hae : c1 = a := by simpa using hpe
          subst hae
          exact ⟨ha, hfil⟩
        · exact absurd hpe (by simp)
    | some r => simp at hg
  · rintro ⟨hc, hfil⟩
    refine ⟨(c, none), ?_, rfl⟩
    rw [mem_mergeLeft]
    exact ⟨c, hc, Or.inl ⟨rfl, hfil⟩⟩

theorem mem_unknownIds (cands : List CandRow) (P : List RosterRow) (x : String) :
    x ∈ unknownIds cands P ↔
      ∃ c, c ∈ cands ∧ c.id = x ∧ P.filter (fun r => r.id == c.id) = [] := by
  unfold unknownIds
  rw [List.mem_map]
  constructor
  · rintro ⟨c, hc, rfl⟩
    rw [mem_unknownBase] at hc
    exact ⟨c, hc.1, rfl, hc.2⟩
  · rintro ⟨c, hc, rfl, hfil⟩
    exact ⟨c, (mem_unknownBase cands P c).mpr ⟨hc, hfil⟩, rfl⟩

theorem mem_rejectedRows (cands : List CandRow) (P : List RosterRow)
    (row : RejectedRow) :
    row ∈ rejectedRows cands P ↔
      ∃ c, c ∈ cands ∧ ∃ r, r ∈ P ∧ r.id = c.id ∧
        isFalseStr r.credibility = true ∧
        row = ⟨c.id, r.comment, "https://www.instagram.com/" ++ c.id⟩ := by
  unfold rejectedRows
  rw [List.mem_filterMap]
  constructor
  · rintro ⟨⟨c1, o⟩, hp, hg⟩
    cases o with
    | none => simp at hg
    | some r =>
        by_cases hf : isFalseStr r.credibility = true
        · simp only [hf, if_true] at hg
          have hrow : row = ⟨c1.id, r.comment, "https://www.instagram.com/" ++ c1.id⟩ := by
            simpa using hg.symm
          rw [mem_mergeLeft] at hp
          obtain ⟨a, ha, hcase⟩ := hp
          rcases hcase with ⟨hpe, _⟩ | ⟨m, hpe, hm⟩
          · exact absurd hpe (by simp)
          · have h1 : c1 = a ∧ r = m := by
              constructor
              · simpa using congrArg Prod.fst hpe
              · simpa using congrArg Prod.snd hpe
            obtain ⟨rfl, rfl⟩ := h1
            rw [List.mem_filter] at hm
            refine ⟨c1, ha, r, hm.1, ?_, hf, hrow⟩
            simpa using hm.2
        · simp only [hf, if_false] at hg
          simp at hg
  · rintro ⟨c, hc, r, hr, hid, hf, rfl⟩
    refine ⟨(c, some r), ?_, by simp [hf]⟩
    rw [mem_mergeLeft]
    refine ⟨c, hc, Or.inr ⟨r, rfl, ?_⟩⟩
    rw [List.mem_filter]
    exact ⟨hr, by simp [hid]⟩

theorem mem_rejectedIds (cands : List CandRow) (P : List RosterRow) (x : String) :
    x ∈ rejectedIds cands P ↔
      ∃ c, c ∈ cands ∧ c.id = x ∧ ∃ r, r ∈ P ∧ r.id = c.id ∧
        isFalseStr r.credibility = true := by
  unfold rejectedIds
  rw [List.mem_map]
  constructor
  · rintro ⟨row, hrow, rfl⟩
    rw [mem_rejectedRows] at hrow
    obtain ⟨c, hc, r, hr, hid, hf, rfl⟩ := hrow
    exact ⟨c, hc, rfl, r, hr, hid, hf⟩
  · rintro ⟨c, hc, rfl, r, hr, hid, hf⟩
    exact ⟨⟨c.id, r.comment, "https://www.instagram.com/" ++ c.id⟩,
      (mem_rejectedRows cands P _).mpr ⟨c, hc, r, hr, hid, hf, rfl⟩, rfl⟩

theorem mem_pendingIds (cands : List CandRow) (P : List RosterRow) (x : String) :
    x ∈ pendingIds cands P ↔
      (∃ c, c ∈ cands ∧ c.id = x) ∧
        x ∉ rejectedIds cands P ∧ x ∉ unknownIds cands P := by
  unfold pendingIds pendingRows
  rw [List.mem_map]
  constructor
  · rintro ⟨c, hc, rfl⟩
    rw [List.mem_filter] at hc
    obtain ⟨hc1, hc2⟩ := hc
    rw [Bool.and_eq_true, Bool.not_eq_true', Bool.not_eq_true'] at hc2
    refine ⟨⟨c, hc1, rfl⟩, ?_, ?_⟩
    · intro h
      rw [(contains_iff_mem _ _).mpr h] at hc2
      exact absurd hc2.1 (by simp)
    · intro h
      rw [(contains_iff_mem _ _).mpr h] at hc2
      exact absurd hc2.2 (by simp)
  · rintro ⟨⟨c, hc, rfl⟩, hr, hu⟩
    refine ⟨c, ?_, rfl⟩
    rw [List.mem_filter]
    refine ⟨hc, ?_⟩
    have h1 : (rejectedIds cands P).contains c.id = false := by
      cases hcon : (rejectedIds cands P).contains c.id with
      | false => rfl
      | true => exact absurd ((contains_iff_mem _ _).mp hcon) hr
    have h2 : (unknownIds cands P).contains c.id = false := by
      cases hcon : (unknownIds cands P).contains c.id with
      | false => rfl
      | true => exact absurd ((contains_iff_mem _ _).mp hcon) hu
    rw [h1, h2]
    rfl

/-! ### Claim C1 -/

theorem partition_general (cands : List CandRow) (P : List RosterRow) :
    (pendingIds cands P).toFinset ∪ (rejectedIds cands P).toFinset ∪
        (unknownIds cands P).toFinset = (candIds cands).toFinset ∧
    (pendingIds cands P).toFinset ∩ (rejectedIds cands P).toFinset = ∅ ∧
    (pendingIds cands P).toFinset ∩ (unknownIds cands P).toFinset = ∅ ∧
    (rejectedIds cands P).toFinset ∩ (unknownIds cands P).toFinset = ∅ := by
  refine ⟨?_, ?_, ?_, ?_⟩
  · ext x
    simp only [Finset.mem_union, List.mem_toFinset]
    constructor
    · rintro ((hx | hx) | hx)
      · rw [mem_pendingIds] at hx
        obtain ⟨⟨c, hc, rfl⟩, _, _⟩ := hx
        exact List.mem_map.mpr ⟨c, hc, rfl⟩
      · rw [mem_rejectedIds] at hx
        obtain ⟨c, hc, rfl, _⟩ := hx
        exact List.mem_map.mpr ⟨c, hc, rfl⟩
      · rw [mem_unknownIds] at hx
        obtain ⟨c, hc, rfl, _⟩ := hx
        exact List.mem_map.mpr ⟨c, hc, rfl⟩
    · intro hx
      obtain ⟨c, hc, rfl⟩ := List.mem_map.mp hx
      by_cases hr : c.id ∈ rejectedIds cands P
      · exact Or.inl (Or.inr hr)
      by_cases hu : c.id ∈ unknownIds cands P
      · exact Or.inr hu
      · exact Or.inl (Or.inl ((mem_pendingIds cands P c.id).mpr ⟨⟨c, hc, rfl⟩, hr, hu⟩))
  · rw [Finset.eq_empty_iff_forall_not_mem]
    intro x hx
    rw [Finset.mem_inter, List.mem_toFinset, List.mem_toFinset] at hx
    obtain ⟨hp, hr⟩ := hx
    exact ((mem_pendingIds cands P x).mp hp).2.1 hr
  · rw [Finset.eq_empty_iff_forall_not_mem]
    intro x hx
    rw [Finset.mem_inter, List.mem_toFinset, List.mem_toFinset] at hx
    obtain ⟨hp, hu⟩ := hx
    exact ((mem_pendingIds cands P x).mp hp).2.2 hu
  · rw [Finset.eq_empty_iff_forall_not_mem]
    intro x hx
    rw [Finset.mem_inter, List.mem_toFinset, List.mem_toFinset] at hx
    obtain ⟨hr, hu⟩ := hx
    rw [mem_rejectedIds] at hr
    rw [mem_unknownIds] at hu
    obtain ⟨c, _, hcx, r, hrP, hrid, _⟩ := hr
    obtain ⟨c2, _, hc2x, hfil⟩ := hu
    rw [List.filter_eq_nil_iff] at hfil
    exact hfil r hrP (by simp [hrid, hcx, hc2x])

/-- Claim C1: reconciliation partitions the uploaded candidate
identities — the pending, rejected and unknown identity sets are
pairwise disjoint and their union is exactly the identity set of the
(normalized) upload, for every upload and every roster. -/
theorem C1_partition (cands : List CandRow) (roster : List RosterRow) :
    (pendingIds (processUpload cands) (loadRoster roster)).toFinset ∪
        (rejectedIds (processUpload cands) (loadRoster roster)).toFinset ∪
        (unknownIds (processUpload cands) (loadRoster roster)).toFinset
      = (candIds (processUpload cands)).toFinset ∧
    (pendingIds (processUpload cands) (loadRoster roster)).toFinset ∩
        (rejectedIds (processUpload cands) (loadRoster roster)).toFinset = ∅ ∧
    (pendingIds (processUpload cands) (loadRoster roster)).toFinset ∩
        (unknownIds (processUpload cands) (loadRoster roster)).toFinset = ∅ ∧
    (rejectedIds (processUpload cands) (loadRoster roster)).toFinset ∩
        (unknownIds (processUpload cands) (loadRoster roster)).toFinset = ∅ :=
  partition_general (processUpload cands) (loadRoster roster)

/-! ### Claims C3 and C4 -/

theorem isPySpace_toLower (c : Char) (h : isPySpace c = true) :
    Char.toLower c = c := by
  unfold isPySpace at h
  simp only [Bool.or_eq_true, beq_iff_eq] at h
  rcases h with ((((rfl | rfl) | rfl) | rfl) | rfl) | rfl <;> decide

theorem pyStrip_of_lower_false (s : String) (h : pyLower s = "false") :
    pyStrip s = s := by
  have hd : s.data.map Char.toLower = ['f', 'a', 'l', 's', 'e'] :=
    congrArg String.data h
  have hhead : ∀ c, s.data.head? = some c → isPySpace c = false := by
    intro c hc
    have h1 : Char.toLower c = 'f' := by
      have := congrArg List.head? hd
      rw [List.head?_map, hc] at this
      simpa using this
    cases hsp : isPySpace c with
    | false => rfl
    | true =>
        have := isPySpace_toLower c hsp
        rw [this] at h1
        subst h1
        exact absurd hsp (by decide)
  have hlast : ∀ c, s.data.getLast? = some c → isPySpace c = false := by
    intro c hc
    have h1 : Char.toLower c = 'e' := by
      have := congrArg List.getLast? hd
      rw [List.getLast?_map, hc] at this
      simpa using this
    cases hsp : isPySpace c with
    | false => rfl
    | true =>
        have := isPySpace_toLower c hsp
        rw [this] at h1
        subst h1
        exact absurd hsp (by decide)
  show (⟨stripBoth s.data⟩ : String) = s
  have hb : stripBoth s.data = s.data := by
    show stripR (stripL s.data) = s.data
    rw [stripL_eq_self _ hhead, stripR_eq_self _ hlast]
  rw [hb]

/-- Claim C3: an uploaded candidate whose normalized identity equals the
stripped identity of a roster row whose credibility cell
case-insensitively equals "false" lands in the rejected partition. -/
theorem C3_rejected (cands : List CandRow) (roster : List RosterRow)
    (c : CandRow) (r : RosterRow) (hc : c ∈ cands) (hr : r ∈ roster)
    (hid : pyStrip r.id = normalize c.id)
    (hcred : pyLower r.credibility = "false") :
    normalize c.id ∈ rejectedIds (processUpload cands) (loadRoster roster) := by
  have hstrip : pyStrip r.credibility = r.credibility :=
    pyStrip_of_lower_false r.credibility hcred
  rw [mem_rejectedIds]
  refine ⟨{ c with id := normalize c.id }, ?_, rfl, loadRosterRow r, ?_, ?_, ?_⟩
  · exact List.mem_map.mpr ⟨c, hc, rfl⟩
  · exact List.mem_map.mpr ⟨r, hr, rfl⟩
  · exact hid
  · show isFalseStr (pyLower (pyStrip r.credibility)) = true
    rw [hstrip, hcred]
    rfl

/-- Witness for claim C3: the upload `"@alice"` against a roster row
`" alice "` with credibility `"FALSE"` is rejected. -/
theorem C3_rejected_witness :
    normalize "@alice" ∈
      rejectedIds (processUpload [⟨"@alice", []⟩])
        (loadRoster [⟨" alice ", "spam account", "FALSE"⟩]) :=
  C3_rejected [⟨"@alice", []⟩] [⟨" alice ", "spam account", "FALSE"⟩]
    ⟨"@alice", []⟩ ⟨" alice ", "spam account", "FALSE"⟩
    (by decide) (by decide) (by decide) (by decide)

/-- Claim C4: an uploaded candidate whose normalized identity matches no
roster row lands in the unknown partition, decorated with the default
status "Rejected" and the default comment "No comment yet". -/
theorem C4_unknown (cands : List CandRow) (roster : List RosterRow)
    (c : CandRow) (hc : c ∈ cands)
    (hno : ∀ r ∈ roster, pyStrip r.id ≠ normalize c.id) :
    (⟨normalize c.id, "https://www.instagram.com/" ++ normalize c.id,
      "No comment yet", false, "Rejected"⟩ : UnknownRow)
      ∈ unknownRows (processUpload cands) (loadRoster roster) := by
  unfold unknownRows
  apply List.mem_map.mpr
  refine ⟨{ c with id := normalize c.id }, ?_, rfl⟩
  rw [mem_unknownBase]
  constructor
  · exact List.mem_map.mpr ⟨c, hc, rfl⟩
  · rw [List.filter_eq_nil_iff]
    intro r' hr'
    obtain ⟨r, hr, rfl⟩ := List.mem_map.mp hr'
    simp only [loadRosterRow, beq_iff_eq]
    simpa using hno r hr

/-- Witness for claim C4: the upload `"@bob "` against a roster holding
only `"alice"` is unknown with the default status and comment. -/
theorem C4_unknown_witness :
    (⟨normalize "@bob ", "https://www.instagram.com/" ++ normalize "@bob ",
      "No comment yet", false, "Rejected"⟩ : UnknownRow)
      ∈ unknownRows (processUpload [⟨"@bob ", []⟩])
          (loadRoster [⟨"alice", "", "TRUE"⟩]) :=
  C4_unknown [⟨"@bob ", []⟩] [⟨"alice", "", "TRUE"⟩] ⟨"@bob ", []⟩
    (by decide) (by decide)

/-! ### Claim C5 -/

theorem applyEdits_singleton {α β : Type} [DecidableEq α] [DecidableEq β]
    (t : EditState α β) (i : Nat) (c : α) (m : β) :
    (t.table.get? i = none → applyEdits t [(i, c, m)] = t) ∧
    (t.table.get? i = some (c, m) → applyEdits t [(i, c, m)] = t) ∧
    (∀ cur, t.table.get? i = some cur → (cur.1 ≠ c ∨ cur.2 ≠ m) →
      applyEdits t [(i, c, m)] = ⟨t.table.set i (c, m), t.version + 1⟩) := by
  refine ⟨?_, ?_, ?_⟩
  · intro hg
    rw [List.get?_eq_getElem?] at hg
    simp [applyEdits, hg]
  · intro hg
    rw [List.get?_eq_getElem?] at hg
    simp [applyEdits, hg]
  · intro cur hg hne
    rw [List.get?_eq_getElem?] at hg
    rcases hne with hne | hne
    · simp [applyEdits, hg, hne]
    · simp [applyEdits, hg, hne]

/-- Claim C5: applying an edit whose proposed credibility and comment
equal the stored values for that row mutates nothing and bumps no
version; consequently applying the same single-row edit twice bumps the
edit-version at most once (the second application is a no-op). -/
theorem C5_apply_edit {α β : Type} [DecidableEq α] [DecidableEq β]
    (s : EditState α β) (i : Nat) (c : α) (m : β) :
    (s.table.get? i = some (c, m) → applyEdits s [(i, c, m)] = s) ∧
    applyEdits (applyEdits s [(i, c, m)]) [(i, c, m)] = applyEdits s [(i, c, m)] ∧
    (applyEdits (applyEdits s [(i, c, m)]) [(i, c, m)]).version ≤ s.version + 1 := by
  obtain ⟨hnone, hsame, hdiff⟩ := applyEdits_singleton s i c m
  refine ⟨hsame, ?_⟩
  cases hg : s.table.get? i with
  | none =>
      simp only [hnone hg]
      exact ⟨trivial, Nat.le_succ s.version⟩
  | some cur =>
      by_cases hcur : cur = (c, m)
      · subst hcur
        simp only [hsame hg]
        exact ⟨trivial, Nat.le_succ s.version⟩
      · have hne : cur.1 ≠ c ∨ cur.2 ≠ m := by
          by_contra hcon
          push_neg at hcon
          exact hcur (Prod.ext hcon.1 hcon.2)
        have h1 : applyEdits s [(i, c, m)] = ⟨s.table.set i (c, m), s.version + 1⟩ :=
          hdiff cur hg hne
        have hset : (s.table.set i (c, m)).get? i = some (c, m) :=
          get?_set_same s.table i (c, m) cur hg
        obtain ⟨_, hsame2, _⟩ :=
          applyEdits_singleton (⟨s.table.set i (c, m), s.version + 1⟩ : EditState α β) i c m
        have h2 : applyEdits (⟨s.table.set i (c, m), s.version + 1⟩ : EditState α β)
            [(i, c, m)] = ⟨s.table.set i (c, m), s.version + 1⟩ := hsame2 hset
        rw [h1, h2]
        exact ⟨rfl, Nat.le_refl _⟩

/-- Witness for claim C5 on a one-row working copy whose stored values
already equal the proposed edit. -/
theorem C5_apply_edit_witness :
    applyEdits (⟨[(true, "ok")], 0⟩ : EditState Bool String) [(0, true, "ok")]
        = ⟨[(true, "ok")], 0⟩ ∧
    applyEdits
        (applyEdits (⟨[(true, "ok")], 0⟩ : EditState Bool String) [(0, true, "ok")])
        [(0, true, "ok")]
      = applyEdits (⟨[(true, "ok")], 0⟩ : EditState Bool String) [(0, true, "ok")] :=
  ⟨(C5_apply_edit ⟨[(true, "ok")], 0⟩ 0 true "ok").1 rfl,
   (C5_apply_edit ⟨[(true, "ok")], 0⟩ 0 true "ok").2.1⟩

/-! ### Claim C6 -/

/-- Claim C6: `get_sheet_version` digests the string made of the decimal
row count, a dash, and the concatenated cells of the last row; it is a
pure function of that pair, so any two row matrices with equal row count
and equal last row give equal digests (regardless of earlier rows), and
repeated calls on the same input agree. -/
theorem C6_fingerprint (digest : String → String) (r1 r2 : List (List String))
    (hlen : r1.length = r2.length) (hlast : r1.getLast? = r2.getLast?) :
    get_sheet_version digest r1 = get_sheet_version digest r2 ∧
    get_sheet_version digest r1 =
      digest (Nat.repr r1.length ++ "-" ++ String.join (r1.getLast?.getD [])) := by
  constructor
  · unfold get_sheet_version versionStr lastRowJoin
    rw [hlen, hlast]
  · rfl

/-- Witness for claim C6: two matrices differing only in a non-last row
fingerprint identically (the documented blind spot), with the identity
digest function. -/
theorem C6_fingerprint_witness :
    get_sheet_version (fun s => s) [["a"], ["z", "w"]] =
      get_sheet_version (fun s => s) [["b"], ["z", "w"]] ∧
    get_sheet_version (fun s => s) [["a"], ["z", "w"]] =
      (fun s => s)
        (Nat.repr ([["a"], ["z", "w"]] : List (List String)).length ++ "-" ++
          String.join (([["a"], ["z", "w"]] : List (List String)).getLast?.getD [])) :=
  C6_fingerprint (fun s => s) [["a"], ["z", "w"]] [["b"], ["z", "w"]]
    (by decide) (by decide)

/-! ### Claim C7 -/

/-- Claim C7: when the freshly computed roster fingerprint differs from
the recorded one, the manager replaces the working copy with the freshly
loaded roster projection (discarding local edits), records the new
fingerprint, and increments the edit-version. -/
theorem C7_reload {T : Type} (st : CredState T) (fresh : T) (v v0 : String)
    (hrec : st.sheet_version = some v0) (hne : v0 ≠ v) :
    checkSheetVersion st fresh v = ⟨fresh, some v, st.editor_version + 1⟩ := by
  cases st with
  | mk ft sv ev =>
      dsimp only at hrec ⊢
      subst hrec
      simp [checkSheetVersion, hne]

/-- Witness for claim C7 on a concrete session state holding fingerprint
"old" when the fresh fingerprint is "new". -/
theorem C7_reload_witness :
    checkSheetVersion (⟨5, some "old", 3⟩ : CredState Nat) 9 "new" =
      ⟨9, some "new", 4⟩ :=
  C7_reload ⟨5, some "old", 3⟩ 9 "new" "old" rfl (by decide)

/-! ### Claim C8 -/

/-- Claim C8: a push writes exactly the header row followed by the
working copy's data rows with booleans rendered "True"/"False", and —
because the sheet is cleared before writing — the remote content after a
push is determined solely by the working copy, independent of whatever
the remote held before. -/
theorem C8_push (t : WorkTable) (remote remote2 : List (List String)) :
    update_google_sheet t remote =
      [t.idCol, t.commentCol, t.credCol] ::
        t.rows.map (fun r => [r.id, r.comment, if r.cred then "True" else "False"]) ∧
    update_google_sheet t remote = update_google_sheet t remote2 := by
  constructor
  · show wsUpdate (wsClear remote) (serializeTable t) = serializeTable t
    unfold wsUpdate wsClear
    simp
  · rfl

/-! ### Claim C9 -/

/-- Claim C9 as frozen is false on the code: when only the master-sheet
fetch fails, `load_worksheet_df` swallows the exception and returns an
empty table, the required-column defaulting succeeds on it, and
`load_all_data` returns successfully — committing a cache whose master
table is empty in place of the previously cached data. -/
theorem C9_counterexample :
    cacheAfter
        (some ⟨⟨["ID", "Comment", "Credibility"], [["bob", "", "true"]]⟩,
               ⟨requiredCols, [["bob", "1", "2", "3", "4", "5"]]⟩⟩)
        (load_all_data
          (Except.ok [["ID", "Comment", "Credibility"], ["alice", "", "true"]])
          (Except.error "network down"))
      ≠ some ⟨⟨["ID", "Comment", "Credibility"], [["bob", "", "true"]]⟩,
              ⟨requiredCols, [["bob", "1", "2", "3", "4", "5"]]⟩⟩ ∧
    (load_all_data
        (Except.ok [["ID", "Comment", "Credibility"], ["alice", "", "true"]])
        (Except.error "network down")).toOption.map (fun d => d.master.rows)
      = some [] := by
  constructor
  · decide
  · decide

/-- Claim C9 (amended): if the influencer-sheet fetch fails, the load
halts with an error and no cache is committed — the previously cached
value remains; but a failure of only the master-sheet fetch is not
propagated: the load succeeds and commits a cache whose master table has
no rows. -/
theorem C9_load_failure_amended (prev : Option LoadedData) (e e2 : String)
    (masterFetch : Except String (List (List String)))
    (h r : List String) (rest : List (List String)) :
    (load_all_data (Except.error e) masterFetch = Except.error () ∧
      cacheAfter prev (load_all_data (Except.error e) masterFetch) = prev) ∧
    ((make_unique_headers h).contains "ID" = true →
      load_all_data (Except.ok (h :: r :: rest)) (Except.error e2) =
        Except.ok ⟨processInf ⟨make_unique_headers h, r :: rest⟩,
                   addMissingCols ⟨[], []⟩⟩) := by
  have h1 : load_all_data (Except.error e) masterFetch = Except.error () := by
    simp [load_all_data, load_worksheet_df]
  refine ⟨⟨h1, ?_⟩, ?_⟩
  · rw [h1]
    rfl
  · intro hid
    have hid2 : "ID" ∈ make_unique_headers h := (contains_iff_mem _ _).mp hid
    simp [load_all_data, load_worksheet_df, hid2]

/-- Witness for the amended claim C9: a failed influencer fetch leaves
an empty cache empty, while a failed master fetch still commits. -/
theorem C9_load_failure_amended_witness :
    (load_all_data (Except.error "auth failed") (Except.ok []) = Except.error () ∧
      cacheAfter none (load_all_data (Except.error "auth failed") (Except.ok [])) = none) ∧
    load_all_data (Except.ok [["ID"], ["alice"]]) (Except.error "timeout") =
      Except.ok ⟨processInf ⟨make_unique_headers ["ID"], [["alice"]]⟩,
                 addMissingCols ⟨[], []⟩⟩ :=
  ⟨(C9_load_failure_amended none "auth failed" "timeout" (Except.ok [])
      ["ID"] ["alice"] []).1,
   (C9_load_failure_amended none "auth failed" "timeout" (Except.ok [])
      ["ID"] ["alice"] []).2 (by decide)⟩

/-! ### Claim C10 -/

/-- Claim C10: the docstring of `make_unique_headers` promises unique
output headers, but a rename can collide with a later input header: on
`["a", "a", "a_1"]` the second "a" is renamed to "a_1", which then
duplicates the untouched third header "a_1". -/
theorem C10_make_unique_headers_bug :
    make_unique_headers ["a", "a", "a_1"] = ["a", "a_1", "a_1"] ∧
    ¬ (make_unique_headers ["a", "a", "a_1"]).Nodup := by
  constructor
  · decide
  · decide

end InfluencerApp
